import Mathlib

/-!
Verification of the MaqamDetector symbolic pattern-matching and fusion core.

This file shallowly embeds the core of `src/JinsLibrary.py` and
`src/MaqamBrain.py` in Lean 4:

* the static jins/maqam catalogs (`JINS_LIBRARY`, `MAQAM_STRUCTURE`);
* the jins matcher (`match_jins`), the sequence segmenter
  (`segment_into_jins`), the maqam inferencer (`predict_maqam_from_jins`)
  and the segmentation search (`analyze_full_sequence`) of
  `JinsAnalyzer`;
* the decision-fusion layer of `MaqamBrain` (`combine_predictions`,
  `calculate_confidence`, `predict`) and the modulation-event derivation
  of `predict_timeline` (`detect_modulations`).

Python floats are modelled as exact rationals (`ℚ`), Python ints as `ℤ`,
dicts of scores as association lists in insertion order (Python dicts
iterate in insertion order, and `max(d, key=d.get)` returns the first
key attaining the maximum).  Score maps that the source computes from
external models (Markov tables, the MLP) are taken as inputs, matching
the interface in the specification.  Display-only note-name fields of
the catalog are omitted; every field consumed by the algorithms is kept.
-/

/-- One entry of `JINS_LIBRARY`: a jins interval template. -/
structure JinsData where
  size : ℕ
  intervals_steps : List ℚ
  intervals_bins : List ℤ
  ghammaz : ℤ
  character : String
  family : String
  starts_on_neutral : Bool := false
  unique_structure : Bool := false
  is_upper_jins : Bool := false
deriving DecidableEq, Repr

/-- One entry of `MAQAM_STRUCTURE`: a two-jins maqam composition. -/
structure MaqamData where
  jins1 : String
  jins1_root : ℤ
  jins2 : String
  jins2_root : ℤ
  alt_jins2 : Option String := none
  modulation_jins : List String := []
  scale_bins : Option (List ℤ) := none
  family : String
deriving DecidableEq, Repr

/-- The result dict produced by `predict_maqam_from_jins` and
`analyze_full_sequence`.  The Python dicts omit the `variant` and
`jins2_root` keys when unset; this is modelled by the defaults
`false` / `none`. -/
structure PredictionResult where
  maqam : String
  jins1 : String
  jins2 : String
  confidence : ℚ
  family : String
  variant : Bool := false
  jins2_root : Option ℤ := none
deriving DecidableEq, Repr

/-- The jins catalog of `JinsLibrary.py`, in source (dict-insertion) order. -/
def JINS_LIBRARY : List (String × JinsData) := [
  ("Bayati",
    { size := 4, intervals_steps := [3/4, 3/4, 1], intervals_bins := [0, 5, 9, 15],
      ghammaz := 15, character := "neutral", family := "Bayati" }),
  ("Rast",
    { size := 5, intervals_steps := [1, 3/4, 3/4, 1], intervals_bins := [0, 6, 10, 15, 21],
      ghammaz := 21, character := "neutral", family := "Rast" }),
  ("Nahawand",
    { size := 5, intervals_steps := [1, 1/2, 1, 1], intervals_bins := [0, 6, 9, 15, 21],
      ghammaz := 21, character := "minor", family := "Nahawand" }),
  ("Hijaz",
    { size := 4, intervals_steps := [1/2, 3/2, 1/2], intervals_bins := [0, 3, 12, 15],
      ghammaz := 15, character := "hijaz", family := "Hijaz" }),
  ("Kurd",
    { size := 4, intervals_steps := [1/2, 1, 1], intervals_bins := [0, 3, 9, 15],
      ghammaz := 15, character := "minor", family := "Kurd" }),
  ("Sikah",
    { size := 3, intervals_steps := [3/4, 1], intervals_bins := [0, 5, 11],
      ghammaz := 11, character := "neutral", family := "Sikah", starts_on_neutral := true }),
  ("Ajam",
    { size := 5, intervals_steps := [1, 1, 1/2, 1], intervals_bins := [0, 6, 12, 15, 21],
      ghammaz := 21, character := "major", family := "Ajam" }),
  ("Saba",
    { size := 4, intervals_steps := [3/4, 3/4, 1/2], intervals_bins := [0, 5, 9, 12],
      ghammaz := 9, character := "saba", family := "Saba", unique_structure := true }),
  ("Nikriz",
    { size := 5, intervals_steps := [1, 1/2, 3/2, 1/2], intervals_bins := [0, 6, 9, 18, 21],
      ghammaz := 21, character := "hijaz", family := "Nikriz" }),
  ("Jiharkah",
    { size := 5, intervals_steps := [1, 1, 1/2, 1], intervals_bins := [0, 6, 12, 15, 21],
      ghammaz := 21, character := "major", family := "Jiharkah" }),
  ("Athar_Kurd",
    { size := 4, intervals_steps := [1/2, 3/2, 1/2], intervals_bins := [0, 3, 12, 15],
      ghammaz := 15, character := "hijaz", family := "Kurd" }),
  ("Lami",
    { size := 4, intervals_steps := [1/2, 1, 1/2], intervals_bins := [0, 3, 9, 12],
      ghammaz := 12, character := "minor", family := "Lami" }),
  ("Mustaar",
    { size := 4, intervals_steps := [1, 3/4, 3/4], intervals_bins := [0, 6, 10, 15],
      ghammaz := 15, character := "neutral", family := "Rast" }),
  ("Upper_Rast",
    { size := 4, intervals_steps := [1, 3/4, 3/4], intervals_bins := [0, 6, 10, 15],
      ghammaz := 0, character := "neutral", family := "Rast", is_upper_jins := true }),
  ("Upper_Ajam",
    { size := 4, intervals_steps := [1, 1, 1/2], intervals_bins := [0, 6, 12, 15],
      ghammaz := 0, character := "major", family := "Ajam", is_upper_jins := true })]

/-- The maqam catalog of `JinsLibrary.py`, in source (dict-insertion) order. -/
def MAQAM_STRUCTURE : List (String × MaqamData) := [
  ("Bayati",
    { jins1 := "Bayati", jins1_root := 0, jins2 := "Nahawand", jins2_root := 15,
      modulation_jins := ["Rast", "Sikah"],
      scale_bins := some [0, 5, 9, 15, 21, 24, 30, 36], family := "Bayati" }),
  ("Husayni",
    { jins1 := "Bayati", jins1_root := 0, jins2 := "Bayati", jins2_root := 21,
      modulation_jins := ["Nahawand"], family := "Bayati" }),
  ("Bayati_Shuri",
    { jins1 := "Bayati", jins1_root := 0, jins2 := "Hijaz", jins2_root := 15,
      family := "Bayati" }),
  ("Rast",
    { jins1 := "Rast", jins1_root := 0, jins2 := "Upper_Rast", jins2_root := 21,
      modulation_jins := ["Nahawand", "Bayati"],
      scale_bins := some [0, 6, 10, 15, 21, 27, 31, 36], family := "Rast" }),
  ("Suznak",
    { jins1 := "Rast", jins1_root := 0, jins2 := "Hijaz", jins2_root := 21,
      modulation_jins := ["Nahawand"], family := "Rast" }),
  ("Nairuz",
    { jins1 := "Rast", jins1_root := 0, jins2 := "Nahawand", jins2_root := 21,
      family := "Rast" }),
  ("Nahawand",
    { jins1 := "Nahawand", jins1_root := 0, jins2 := "Hijaz", jins2_root := 21,
      alt_jins2 := some "Kurd", modulation_jins := ["Rast"],
      scale_bins := some [0, 6, 9, 15, 21, 24, 33, 36], family := "Nahawand" }),
  ("Nahawand_Murassaa",
    { jins1 := "Nahawand", jins1_root := 0, jins2 := "Nahawand", jins2_root := 21,
      family := "Nahawand" }),
  ("Hijaz",
    { jins1 := "Hijaz", jins1_root := 0, jins2 := "Nahawand", jins2_root := 15,
      alt_jins2 := some "Rast", modulation_jins := ["Bayati"],
      scale_bins := some [0, 3, 12, 15, 21, 24, 30, 36], family := "Hijaz" }),
  ("Hijazkar",
    { jins1 := "Hijaz", jins1_root := 0, jins2 := "Hijaz", jins2_root := 21,
      modulation_jins := ["Nahawand"], family := "Hijaz" }),
  ("Shadd_Araban",
    { jins1 := "Hijaz", jins1_root := 0, jins2 := "Upper_Rast", jins2_root := 21,
      family := "Hijaz" }),
  ("Zanjaran",
    { jins1 := "Hijaz", jins1_root := 0, jins2 := "Sikah", jins2_root := 12,
      family := "Hijaz" }),
  ("Kurd",
    { jins1 := "Kurd", jins1_root := 0, jins2 := "Nahawand", jins2_root := 15,
      modulation_jins := ["Hijaz"],
      scale_bins := some [0, 3, 9, 15, 21, 24, 30, 36], family := "Kurd" }),
  ("Sikah",
    { jins1 := "Sikah", jins1_root := 0, jins2 := "Rast", jins2_root := 11,
      modulation_jins := ["Bayati", "Hijaz"], family := "Sikah" }),
  ("Huzam",
    { jins1 := "Sikah", jins1_root := 0, jins2 := "Hijaz", jins2_root := 15,
      family := "Sikah" }),
  ("Iraq",
    { jins1 := "Sikah", jins1_root := 0, jins2 := "Bayati", jins2_root := 15,
      family := "Sikah" }),
  ("Ajam",
    { jins1 := "Ajam", jins1_root := 0, jins2 := "Upper_Ajam", jins2_root := 21,
      modulation_jins := ["Nahawand"],
      scale_bins := some [0, 6, 12, 15, 21, 27, 33, 36], family := "Ajam" }),
  ("Jiharkah",
    { jins1 := "Jiharkah", jins1_root := 0, jins2 := "Rast", jins2_root := 21,
      family := "Ajam" }),
  ("Shawq_Afza",
    { jins1 := "Ajam", jins1_root := 0, jins2 := "Sikah", jins2_root := 21,
      family := "Ajam" }),
  ("Saba",
    { jins1 := "Saba", jins1_root := 0, jins2 := "Hijaz", jins2_root := 12,
      modulation_jins := ["Bayati", "Kurd"],
      scale_bins := some [0, 5, 9, 12, 15, 18, 27, 36], family := "Saba" }),
  ("Saba_Zamzam",
    { jins1 := "Saba", jins1_root := 0, jins2 := "Saba", jins2_root := 12,
      family := "Saba" }),
  ("Nikriz",
    { jins1 := "Nikriz", jins1_root := 0, jins2 := "Nahawand", jins2_root := 21,
      alt_jins2 := some "Upper_Rast", modulation_jins := ["Hijaz"],
      scale_bins := some [0, 6, 9, 18, 21, 27, 30, 36], family := "Nikriz" }),
  ("Nawa_Athar",
    { jins1 := "Nikriz", jins1_root := 0, jins2 := "Hijaz", jins2_root := 21,
      family := "Nikriz" }),
  ("Athar_Kurd",
    { jins1 := "Athar_Kurd", jins1_root := 0, jins2 := "Nikriz", jins2_root := 15,
      family := "Nikriz" })]

/-- Python's `sorted(set(note_sequence))`: the distinct notes in ascending
order.  (`List.dedup` keeps one copy of each value; sortedness is
irrelevant to the matcher, which only tests membership.) -/
def unique_sorted (note_sequence : List ℤ) : List ℤ :=
  (note_sequence.insertionSort (fun a b => a ≤ b)).dedup

/-- The per-template coverage score of `match_jins`: how many template
offsets have an observed note within `tolerance`, divided by template
length.  Each template offset counts at most once (the inner Python loop
breaks at the first matching note). -/
def jins_score (unique_notes : List ℤ) (tolerance : ℤ) (intervals : List ℤ) : ℚ :=
  ((intervals.countP (fun iv => unique_notes.any (fun n => decide (|n - iv| ≤ tolerance)))) : ℚ)
    / (intervals.length : ℚ)

/-- The selection loop of `match_jins`: keep the template with the strictly
highest score seen so far (first-seen wins ties), skipping templates with
an empty `intervals_bins` list. -/
def match_fold (unique_notes : List ℤ) (tolerance : ℤ) :
    List (String × JinsData) → Option String → ℚ → Option String × ℚ
  | [], best_match, best_score => (best_match, best_score)
  | (jins_name, jins_data) :: rest, best_match, best_score =>
    if jins_data.intervals_bins = [] then
      match_fold unique_notes tolerance rest best_match best_score
    else
      let score := jins_score unique_notes tolerance jins_data.intervals_bins
      if best_score < score then
        match_fold unique_notes tolerance rest (some jins_name) score
      else
        match_fold unique_notes tolerance rest best_match best_score

/-- `JinsAnalyzer.match_jins`: match a note sequence to the most likely
jins.  The source's default tolerance is 2. -/
def match_jins (note_sequence : List ℤ) (tolerance : ℤ) : String × ℚ :=
  if note_sequence.length < 3 then ("Unknown", 0)
  else
    let unique_notes := unique_sorted note_sequence
    let r := match_fold unique_notes tolerance JINS_LIBRARY none 0
    (r.1.getD "Unknown", r.2)

/-- `JinsAnalyzer.segment_into_jins`: split a sequence into the lower
(jins1) region and the upper (jins2) region, re-basing the latter to the
boundary. -/
def segment_into_jins : List ℤ → ℤ → List ℤ × List ℤ
  | [], _ => ([], [])
  | note :: rest, jins2_root =>
    let p := segment_into_jins rest jins2_root
    if note < jins2_root then (note :: p.1, p.2) else (p.1, (note - jins2_root) :: p.2)

/-- `JinsAnalyzer.predict_maqam_from_jins`: scan `MAQAM_STRUCTURE` in
catalog order for the first structure whose jins1 equals the matched
jins1 and whose jins2 (or declared alternate jins2) equals the matched
jins2; otherwise fall back to a synthetic `"<jins1>-based"` result.
Total by construction, as the source never raises. -/
def predict_maqam_from_jins (jins1_match jins2_match : String × ℚ) : PredictionResult :=
  match MAQAM_STRUCTURE.find? (fun q =>
      q.2.jins1 == jins1_match.1 &&
        (q.2.jins2 == jins2_match.1 || q.2.alt_jins2 == some jins2_match.1)) with
  | some (maqam_name, s) =>
    if s.jins2 = jins2_match.1 then
      { maqam := maqam_name, jins1 := jins1_match.1, jins2 := jins2_match.1,
        confidence := (jins1_match.2 + jins2_match.2) / 2, family := s.family }
    else
      { maqam := maqam_name, jins1 := jins1_match.1, jins2 := jins2_match.1,
        confidence := (jins1_match.2 + jins2_match.2) / 2 * (9/10), family := s.family,
        variant := true }
  | none =>
    { maqam := jins1_match.1 ++ "-based", jins1 := jins1_match.1, jins2 := jins2_match.1,
      confidence := jins1_match.2 * (6/10),
      family := ((JINS_LIBRARY.lookup jins1_match.1).map (fun j => j.family)).getD "Unknown" }

/-- The Unknown sentinel returned by `analyze_full_sequence` when no
candidate boundary was retained.  It carries no `jins2_root`. -/
def unknown_result : PredictionResult :=
  { maqam := "Unknown", jins1 := "Unknown", jins2 := "Unknown",
    confidence := 0, family := "Unknown" }

/-- The per-boundary body of `analyze_full_sequence`: segment at `root`
and run the matcher on each region (default tolerance 2), then infer the
maqam. -/
def candidate_result (sequence : List ℤ) (root : ℤ) : PredictionResult :=
  let p := segment_into_jins sequence root
  predict_maqam_from_jins (match_jins p.1 2) (match_jins p.2 2)

/-- The candidate jins2 roots tried by `analyze_full_sequence`:
diminished 4th, perfect 4th, tritone, perfect 5th (36-bin resolution). -/
def jins2_root_candidates : List ℤ := [12, 15, 18, 21]

/-- A candidate boundary is skipped when the lower region has fewer than
3 elements or the upper region fewer than 2. -/
def root_usable (sequence : List ℤ) (root : ℤ) : Bool :=
  decide (¬((segment_into_jins sequence root).1.length < 3 ∨
            (segment_into_jins sequence root).2.length < 2))

/-- The search loop of `analyze_full_sequence`: try each candidate root
in order, skip unusable ones, and keep the result with the strictly
highest confidence, attaching the winning root as `jins2_root`. -/
def search_loop (sequence : List ℤ) :
    List ℤ → Option PredictionResult → ℚ → Option PredictionResult
  | [], best_result, _ => best_result
  | root :: rest, best_result, best_confidence =>
    if (segment_into_jins sequence root).1.length < 3 ∨
       (segment_into_jins sequence root).2.length < 2 then
      search_loop sequence rest best_result best_confidence
    else
      let r := candidate_result sequence root
      if best_confidence < r.confidence then
        search_loop sequence rest (some { r with jins2_root := some root }) r.confidence
      else
        search_loop sequence rest best_result best_confidence

/-- `JinsAnalyzer.analyze_full_sequence`: the bounded segmentation
search over the fixed candidate boundaries. -/
def analyze_full_sequence (sequence : List ℤ) : PredictionResult :=
  (search_loop sequence jins2_root_candidates none 0).getD unknown_result

/-- The non-skipped candidate boundaries of a sequence, each paired with
its inferred result, in search order.  Used to state properties of
`analyze_full_sequence`. -/
def usable_candidates (sequence : List ℤ) : List (ℤ × PredictionResult) :=
  (jins2_root_candidates.filter (fun r => root_usable sequence r)).map
    (fun r => (r, candidate_result sequence r))

/-- Specification-side view of the retention policy: return the earliest
element whose confidence strictly exceeds every earlier confidence and
the running threshold `bc` (i.e. the first element attaining the maximum,
provided that maximum exceeds `bc`). -/
def pick (bc : ℚ) : List (ℤ × PredictionResult) → Option (ℤ × PredictionResult)
  | [] => none
  | p :: rest =>
    if bc < p.2.confidence then some ((pick p.2.confidence rest).getD p)
    else pick bc rest

/-- The argmax loop of Python's `max(scores, key=scores.get)` over a
non-empty score map in insertion order: keep the first key whose value
strictly exceeds the best seen so far. -/
def argmax_loop : String → ℚ → List (String × ℚ) → String
  | best_key, _, [] => best_key
  | best_key, best_val, (k, v) :: rest =>
    if best_val < v then argmax_loop k v rest else argmax_loop best_key best_val rest

/-- `MaqamBrain._combine_predictions`: strict source priority
MLP > Markov > symbolic. -/
def combine_predictions (jins_result : PredictionResult)
    (markov_scores mlp_scores : List (String × ℚ)) : String :=
  match mlp_scores with
  | (k, v) :: rest => argmax_loop k v rest
  | [] =>
    match markov_scores with
    | (k, v) :: rest => argmax_loop k v rest
    | [] => jins_result.maqam

/-- Python's `max` over a non-empty list of rationals (head-seeded fold). -/
def list_max : List ℚ → ℚ
  | [] => 0
  | x :: xs => xs.foldl max x

/-- Python's `min` over a non-empty list of rationals (head-seeded fold). -/
def list_min : List ℚ → ℚ
  | [] => 0
  | x :: xs => xs.foldl min x

/-- The `confidence_sources` list built by `MaqamBrain._calculate_confidence`:
the symbolic confidence when truthy (non-zero), the MLP probability of the
predicted maqam when present, and the min-max-normalized Markov score of
the predicted maqam when the map has more than one entry with a non-zero
range. -/
def confidence_sources (jins_result : PredictionResult)
    (markov_scores mlp_scores : List (String × ℚ)) (prediction : String) : List ℚ :=
  let s1 : List ℚ := if jins_result.confidence ≠ 0 then [jins_result.confidence] else []
  let s2 : List ℚ :=
    match mlp_scores.lookup prediction with
    | some v => s1 ++ [v]
    | none => s1
  match markov_scores.lookup prediction with
  | some v =>
    let scores := markov_scores.map (fun q => q.2)
    if 1 < scores.length then
      let score_range := list_max scores - list_min scores
      if 0 < score_range then s2 ++ [(v - list_min scores) / score_range] else s2
    else s2
  | none => s2

/-- `MaqamBrain._calculate_confidence`: the arithmetic mean of the
available confidence sources, or 0 when none is available. -/
def calculate_confidence (jins_result : PredictionResult)
    (markov_scores mlp_scores : List (String × ℚ)) (prediction : String) : ℚ :=
  let s := confidence_sources jins_result markov_scores mlp_scores prediction
  if s = [] then 0 else s.sum / (s.length : ℚ)

/-- The fusion steps of `MaqamBrain.predict`: select the winning maqam
with `combine_predictions`, then compute the unified confidence with
`calculate_confidence`.  The symbolic result and the two score maps are
inputs, per the interface contract (the source computes the score maps
from externally trained models). -/
def predict (jins_result : PredictionResult)
    (markov_scores mlp_scores : List (String × ℚ)) : String × ℚ :=
  let best_maqam := combine_predictions jins_result markov_scores mlp_scores
  (best_maqam, calculate_confidence jins_result markov_scores mlp_scores best_maqam)

/-- One per-window record of the timeline built by
`MaqamBrain.predict_timeline`. -/
structure TimelineEntry where
  start_time : ℚ
  end_time : ℚ
  maqam : String
  jins1 : String
  jins2 : String
  confidence : ℚ
deriving DecidableEq, Repr

/-- A modulation event derived by `MaqamBrain.predict_timeline`. -/
structure ModulationEvent where
  time : ℚ
  from_maqam : String
  to_maqam : String
deriving DecidableEq, Repr

/-- The modulation-derivation loop of `MaqamBrain.predict_timeline`
(`for i in range(1, len(timeline))`): emit an event for every adjacent
pair of windows whose predicted maqam differs, at the later window's
start time. -/
def detect_modulations : List TimelineEntry → List ModulationEvent
  | a :: b :: rest =>
    (if b.maqam ≠ a.maqam then
      [{ time := b.start_time, from_maqam := a.maqam, to_maqam := b.maqam }]
     else []) ++ detect_modulations (b :: rest)
  | _ => []

/- Batteries marks the rational-number operations `@[irreducible]`, which
blocks `decide` from evaluating concrete scores.  All values here are
small exact rationals, so unfolding them is safe. -/
attribute [local semireducible] Rat.add Rat.mul Rat.inv Rat.sub

/-! ## Basic properties of the segmenter -/

/-- The lower region returned by `segment_into_jins` is the subsequence of
elements strictly below the boundary, unchanged. -/
theorem segment_into_jins_fst (seq : List ℤ) (b : ℤ) :
    (segment_into_jins seq b).1 = seq.filter (fun x => decide (x < b)) := by
  induction seq with
  | nil => rfl
  | cons n rest ih =>
    by_cases hn : n < b <;> simp [segment_into_jins, hn, ih]

/-- The upper region returned by `segment_into_jins` is the subsequence of
elements at or above the boundary, re-based by subtracting the boundary. -/
theorem segment_into_jins_snd (seq : List ℤ) (b : ℤ) :
    (segment_into_jins seq b).2 = (seq.filter (fun x => decide (b ≤ x))).map (fun x => x - b) := by
  induction seq with
  | nil => rfl
  | cons n rest ih =>
    by_cases hn : n < b
    · simp [segment_into_jins, hn, ih, not_le.mpr hn]
    · simp [segment_into_jins, hn, ih, not_lt.mp hn]

/-- C7: `segment_into_jins(seq, b)` is a lossless, order-preserving
partition: elements strictly below `b` form the lower output unchanged,
elements at or above `b` form the upper output with `b` subtracted, both
in original relative order and without deduplication, and the multiset
`lower ++ map (+b) upper` equals the multiset of `seq`. -/
theorem segment_into_jins_lossless_partition (seq : List ℤ) (b : ℤ) :
    (segment_into_jins seq b).1 = seq.filter (fun x => decide (x < b)) ∧
    (segment_into_jins seq b).2 = (seq.filter (fun x => decide (b ≤ x))).map (fun x => x - b) ∧
    ((segment_into_jins seq b).1 ++ (segment_into_jins seq b).2.map (fun x => x + b)).Perm seq := by
  refine ⟨segment_into_jins_fst seq b, segment_into_jins_snd seq b, ?_⟩
  induction seq with
  | nil => simp [segment_into_jins]
  | cons n rest ih =>
    by_cases hn : n < b
    · simpa [segment_into_jins, hn] using ih.cons n
    · simp only [segment_into_jins, if_neg hn]
      have : (segment_into_jins rest b).1 ++ (n - b + b) ::
          (segment_into_jins rest b).2.map (fun x => x + b) =
          (segment_into_jins rest b).1 ++ n ::
          (segment_into_jins rest b).2.map (fun x => x + b) := by
        norm_num
      simpa [this] using List.Perm.trans List.perm_middle (ih.cons n)

/-! ## The short-sequence guard of the matcher (C3) -/

/-- The guard of `match_jins` tests the sequence's total length, not its
distinct-position count: any sequence of fewer than 3 elements yields
the Unknown result. -/
theorem match_jins_short_sequence_unknown (seq : List ℤ) (tol : ℤ)
    (h : seq.length < 3) : match_jins seq tol = ("Unknown", 0) := by
  simp [match_jins, h]

/-- Witness for `match_jins_short_sequence_unknown` at the two-element
sequence `[0, 15]`. -/
theorem match_jins_short_sequence_unknown_witness :
    ([0, 15] : List ℤ).length < 3 ∧ match_jins [0, 15] 2 = ("Unknown", 0) :=
  ⟨by decide, match_jins_short_sequence_unknown [0, 15] 2 (by decide)⟩

/-- Counterexample to C3 as stated: `[0,0,0,0]` has a single distinct
position (fewer than 3), yet `match_jins` does not return the Unknown
result — the length guard sees 4 elements and matching proceeds,
returning Sikah with confidence 1/3. -/
theorem match_jins_distinct_count_cex :
    ([0, 0, 0, 0] : List ℤ).dedup.length = 1 ∧
    match_jins [0, 0, 0, 0] 2 = ("Sikah", 1/3) ∧
    match_jins [0, 0, 0, 0] 2 ≠ ("Unknown", 0) := by
  decide

/-! ## Matching a template against its own offsets (C4) -/

/-- For every template in the catalog, matching a sequence consisting of
exactly the template's own offsets (at the default tolerance 2) yields
confidence 1.0.  The returned name is the first template in catalog
order attaining a perfect score, which need not be the template itself. -/
theorem match_jins_own_offsets_full_confidence :
    ∀ q ∈ JINS_LIBRARY, (match_jins q.2.intervals_bins 2).2 = 1 := by
  decide

/-- Witness for `match_jins_own_offsets_full_confidence` at Jins Bayati. -/
theorem match_jins_own_offsets_full_confidence_witness :
    ("Bayati",
      ({ size := 4, intervals_steps := [3/4, 3/4, 1], intervals_bins := [0, 5, 9, 15],
         ghammaz := 15, character := "neutral", family := "Bayati" } : JinsData)) ∈
      JINS_LIBRARY ∧
    (match_jins
      ({ size := 4, intervals_steps := [3/4, 3/4, 1], intervals_bins := [0, 5, 9, 15],
         ghammaz := 15, character := "neutral", family := "Bayati" } : JinsData).intervals_bins
      2).2 = 1 :=
  ⟨by decide, match_jins_own_offsets_full_confidence
    ("Bayati",
      { size := 4, intervals_steps := [3/4, 3/4, 1], intervals_bins := [0, 5, 9, 15],
        ghammaz := 15, character := "neutral", family := "Bayati" })
    (by decide)⟩

/-- Counterexample to C4 as stated: Jins Rast's own offsets
`[0, 6, 10, 15, 21]` are matched to "Bayati", not "Rast" — Bayati's four
offsets all lie within tolerance 2 of Rast's offsets, giving Bayati a
perfect score first in catalog iteration order. -/
theorem match_jins_own_offsets_name_cex :
    (JINS_LIBRARY.lookup "Rast").map (fun j => j.intervals_bins) = some [0, 6, 10, 15, 21] ∧
    match_jins [0, 6, 10, 15, 21] 2 = ("Bayati", 1) ∧
    ("Bayati" : String) ≠ "Rast" := by
  decide

/-! ## The inferencer fallback (C8) -/

/-- When no catalog structure pairs the matched jins1 with the matched
jins2 or its declared alternate, `predict_maqam_from_jins` returns the
synthetic fallback: name `"<jins1>-based"`, confidence
`jins1_confidence * 0.6`, and the jins1 template's family tag when that
template exists (otherwise "Unknown").  The function is total: this and
the two structure-match branches are the only outcomes. -/
theorem predict_maqam_from_jins_fallback (j1 j2 : String × ℚ)
    (h : ∀ q ∈ MAQAM_STRUCTURE,
      ¬(q.2.jins1 = j1.1 ∧ (q.2.jins2 = j2.1 ∨ q.2.alt_jins2 = some j2.1))) :
    predict_maqam_from_jins j1 j2 =
      { maqam := j1.1 ++ "-based", jins1 := j1.1, jins2 := j2.1,
        confidence := j1.2 * (6/10),
        family := ((JINS_LIBRARY.lookup j1.1).map (fun j => j.family)).getD "Unknown" } := by
  have hf : MAQAM_STRUCTURE.find? (fun q =>
      q.2.jins1 == j1.1 && (q.2.jins2 == j2.1 || q.2.alt_jins2 == some j2.1)) = none := by
    rw [List.find?_eq_none]
    intro q hq
    have := h q hq
    simp only [Bool.and_eq_true, Bool.or_eq_true, beq_iff_eq]
    tauto
  simp only [predict_maqam_from_jins, hf]

/-- Witness for `predict_maqam_from_jins_fallback` with both jins
Unknown: the call does not fail and degrades to the synthetic result. -/
theorem predict_maqam_from_jins_fallback_witness :
    (∀ q ∈ MAQAM_STRUCTURE,
      ¬(q.2.jins1 = "Unknown" ∧ (q.2.jins2 = "Unknown" ∨ q.2.alt_jins2 = some "Unknown"))) ∧
    predict_maqam_from_jins ("Unknown", 1/2) ("Unknown", 0) =
      { maqam := "Unknown" ++ "-based", jins1 := "Unknown", jins2 := "Unknown",
        confidence := (1/2 : ℚ) * (6/10),
        family := ((JINS_LIBRARY.lookup "Unknown").map (fun j => j.family)).getD "Unknown" } :=
  ⟨by decide, predict_maqam_from_jins_fallback ("Unknown", 1/2) ("Unknown", 0) (by decide)⟩

/-! ## Modulation events (C9) -/

/-- The modulation derivation of `predict_timeline` emits exactly one
event per adjacent pair of windows whose predicted maqam differs,
timestamped at the later window's start time, naming the earlier maqam
as "from" and the later as "to"; equal adjacent predictions emit no
event. -/
theorem detect_modulations_adjacent_pairs (timeline : List TimelineEntry) :
    detect_modulations timeline =
      (timeline.zip timeline.tail).filterMap (fun p =>
        if p.2.maqam ≠ p.1.maqam then
          some { time := p.2.start_time, from_maqam := p.1.maqam, to_maqam := p.2.maqam }
        else none) := by
  induction timeline with
  | nil => rfl
  | cons a rest ih =>
    cases rest with
    | nil => rfl
    | cons b rest2 =>
      by_cases h : b.maqam = a.maqam <;>
        simp [detect_modulations, ih, h, List.filterMap_cons]

/-! ## Fusion winner selection (C5) -/

/-- The argmax loop returns a key of the map whose value is maximal
(Python's `max(d, key=d.get)` over insertion order). -/
theorem argmax_loop_max (rest : List (String × ℚ)) :
    ∀ (k : String) (v : ℚ), ∃ w, (argmax_loop k v rest, w) ∈ (k, v) :: rest ∧ v ≤ w ∧
      ∀ q ∈ (k, v) :: rest, q.2 ≤ w := by
  induction rest with
  | nil =>
    intro k v
    exact ⟨v, by simp [argmax_loop], le_refl v, by simp [argmax_loop]⟩
  | cons p rest ih =>
    intro k v
    obtain ⟨k', v'⟩ := p
    by_cases h : v < v'
    · obtain ⟨w, hmem, hle, hall⟩ := ih k' v'
      refine ⟨w, ?_, le_of_lt (lt_of_lt_of_le h hle), ?_⟩
      · simpa [argmax_loop, h] using List.mem_cons_of_mem (k, v) hmem
      · intro q hq
        rcases List.mem_cons.mp hq with hq | hq
        · subst hq; exact le_of_lt (lt_of_lt_of_le h hle)
        · exact hall q hq
    · obtain ⟨w, hmem, hle, hall⟩ := ih k v
      refine ⟨w, ?_, hle, ?_⟩
      · rcases List.mem_cons.mp hmem with hm | hm
        · simp [argmax_loop, h, hm]
        · simpa [argmax_loop, h] using
            List.mem_cons_of_mem (k, v) (List.mem_cons_of_mem (k', v') hm)
      · intro q hq
        rcases List.mem_cons.mp hq with hq | hq
        · subst hq; exact hall (k, v) (List.mem_cons_self _ _)
        · rcases List.mem_cons.mp hq with hq | hq
          · subst hq; exact le_trans (not_lt.mp h) hle
          · exact hall q (List.mem_cons_of_mem _ hq)

/-- C5: strict selection priority of the fusion engine.  When the
classifier-score map is non-empty the predicted maqam is an arg-max key
of it, independently of the transition-score map; when it is empty and
the transition-score map is non-empty the predicted maqam is an arg-max
key of the latter; when both are empty the predicted maqam is the
symbolic result's maqam name. -/
theorem combine_predictions_strict_priority (jins_result : PredictionResult)
    (markov_scores mlp_scores : List (String × ℚ)) :
    (mlp_scores ≠ [] → ∃ v,
      (combine_predictions jins_result markov_scores mlp_scores, v) ∈ mlp_scores ∧
      ∀ q ∈ mlp_scores, q.2 ≤ v) ∧
    (mlp_scores = [] → markov_scores ≠ [] → ∃ v,
      (combine_predictions jins_result markov_scores mlp_scores, v) ∈ markov_scores ∧
      ∀ q ∈ markov_scores, q.2 ≤ v) ∧
    (mlp_scores = [] → markov_scores = [] →
      combine_predictions jins_result markov_scores mlp_scores = jins_result.maqam) := by
  refine ⟨?_, ?_, ?_⟩
  · intro hne
    cases mlp_scores with
    | nil => exact absurd rfl hne
    | cons p rest =>
      obtain ⟨k, v⟩ := p
      obtain ⟨w, hmem, _, hall⟩ := argmax_loop_max rest k v
      exact ⟨w, by simpa [combine_predictions] using hmem,
        by simpa [combine_predictions] using hall⟩
  · intro he hne
    subst he
    cases markov_scores with
    | nil => exact absurd rfl hne
    | cons p rest =>
      obtain ⟨k, v⟩ := p
      obtain ⟨w, hmem, _, hall⟩ := argmax_loop_max rest k v
      exact ⟨w, by simpa [combine_predictions] using hmem,
        by simpa [combine_predictions] using hall⟩
  · intro he hm
    subst he; subst hm
    rfl

/-- Witness for `combine_predictions_strict_priority`: with a non-empty
classifier map, the winner is its arg-max key regardless of the
transition map. -/
theorem combine_predictions_strict_priority_witness :
    ([("A", (1 : ℚ)), ("B", 2)] ≠ ([] : List (String × ℚ))) ∧
    (∃ v, (combine_predictions unknown_result [("C", (5 : ℚ))] [("A", (1 : ℚ)), ("B", 2)], v) ∈
        [("A", (1 : ℚ)), ("B", 2)] ∧
      ∀ q ∈ [("A", (1 : ℚ)), ("B", 2)], q.2 ≤ v) :=
  ⟨by decide,
    (combine_predictions_strict_priority unknown_result [("C", 5)] [("A", 1), ("B", 2)]).1
      (by decide)⟩

/-! ## Fused confidence sources (C1, C2) -/

/-- Amended C1: the symbolic result's own confidence is one of the
averaged confidence sources exactly when it is non-zero (Python
truthiness); a 0.0 symbolic confidence is dropped and only the remaining
sources are averaged. -/
theorem confidence_sources_symbolic_iff_nonzero (jins_result : PredictionResult)
    (markov_scores mlp_scores : List (String × ℚ)) (prediction : String) :
    confidence_sources jins_result markov_scores mlp_scores prediction =
      (if jins_result.confidence = 0 then ([] : List ℚ) else [jins_result.confidence]) ++
        confidence_sources { jins_result with confidence := 0 }
          markov_scores mlp_scores prediction := by
  by_cases h0 : jins_result.confidence = 0 <;>
    cases hcs : mlp_scores.lookup prediction <;>
    cases hms : markov_scores.lookup prediction <;>
    simp [confidence_sources, hcs, hms, h0] <;>
    split_ifs <;>
    simp

/-- Counterexample to C1 as stated: for the empty sequence the symbolic
confidence is 0.0, and with a classifier score of 0.9 for "Rast" the
fused confidence is 0.9, not the average (0 + 0.9)/2 = 0.45 that
including the zero symbolic source would give. -/
theorem confidence_zero_symbolic_excluded_cex :
    analyze_full_sequence [] = unknown_result ∧
    (analyze_full_sequence []).confidence = 0 ∧
    predict (analyze_full_sequence []) [] [("Rast", 9/10)] = ("Rast", 9/10) ∧
    ((9 : ℚ)/10) ≠ (0 + 9/10) / 2 := by
  decide

/-- Amended C2: with classifier scores Rast ↦ 0.9, Hijaz ↦ 0.1, no
transition scores, and symbolic result ("Hijaz", 0.4), the fused
prediction is "Rast" with confidence (0.4 + 0.9)/2 = 0.65: the non-zero
symbolic confidence is averaged in even though its maqam differs from
the winner. -/
theorem predict_includes_mismatched_symbolic_confidence :
    predict
      { maqam := "Hijaz", jins1 := "Unknown", jins2 := "Unknown",
        confidence := 2/5, family := "Unknown" }
      [] [("Rast", 9/10), ("Hijaz", 1/10)] = ("Rast", (2/5 + 9/10) / 2) := by
  decide

/-- Counterexample to C2 as stated: in the claim's scenario the fused
confidence is 0.65, not 0.9 — the symbolic confidence for the losing
maqam is not excluded from the average. -/
theorem predict_confidence_not_classifier_only_cex :
    predict
      { maqam := "Hijaz", jins1 := "Unknown", jins2 := "Unknown",
        confidence := 2/5, family := "Unknown" }
      [] [("Rast", 9/10), ("Hijaz", 1/10)] = ("Rast", 13/20) ∧
    ((13 : ℚ)/20) ≠ 9/10 := by
  decide

/-! ## Positivity of matcher scores -/

/-- The running best score of the matcher's selection loop never
decreases. -/
theorem match_fold_snd_mono (u : List ℤ) (t : ℤ) :
    ∀ (L : List (String × JinsData)) (bm : Option String) (bs : ℚ),
      bs ≤ (match_fold u t L bm bs).2 := by
  intro L
  induction L with
  | nil => intro bm bs; simp [match_fold]
  | cons p L ih =>
    intro bm bs
    obtain ⟨nm, jd⟩ := p
    by_cases he : jd.intervals_bins = []
    · simpa [match_fold, he] using ih bm bs
    · by_cases hs : bs < jins_score u t jd.intervals_bins
      · have h2 := ih (some nm) (jins_score u t jd.intervals_bins)
        simp only [match_fold, if_neg he, if_pos hs]
        exact le_trans (le_of_lt hs) h2
      · simpa only [match_fold, if_neg he, if_neg hs] using ih bm bs

/-- The final best score of the matcher's selection loop is at least the
score of every template in the scanned list (with non-empty intervals). -/
theorem match_fold_snd_ge (u : List ℤ) (t : ℤ) :
    ∀ (L : List (String × JinsData)) (bm : Option String) (bs : ℚ) (q : String × JinsData),
      q ∈ L → q.2.intervals_bins ≠ [] →
      jins_score u t q.2.intervals_bins ≤ (match_fold u t L bm bs).2 := by
  intro L
  induction L with
  | nil => intro bm bs q hq; exact absurd hq (List.not_mem_nil q)
  | cons p L ih =>
    obtain ⟨nm, jd⟩ := p
    intro bm bs q hq hqne
    rcases List.mem_cons.mp hq with hq1 | hq1
    · subst hq1
      simp only at hqne
      by_cases hs : bs < jins_score u t jd.intervals_bins
      · simp only [match_fold, if_neg hqne, if_pos hs]
        exact match_fold_snd_mono u t L (some nm) _
      · simp only [match_fold, if_neg hqne, if_neg hs]
        exact le_trans (not_lt.mp hs) (match_fold_snd_mono u t L bm bs)
    · by_cases he : jd.intervals_bins = []
      · simpa only [match_fold, if_pos he] using ih bm bs q hq1 hqne
      · by_cases hs : bs < jins_score u t jd.intervals_bins
        · simpa only [match_fold, if_neg he, if_pos hs] using ih _ _ q hq1 hqne
        · simpa only [match_fold, if_neg he, if_neg hs] using ih bm bs q hq1 hqne

/-- The matcher's confidence is never negative. -/
theorem match_jins_snd_nonneg (ns : List ℤ) (t : ℤ) : 0 ≤ (match_jins ns t).2 := by
  by_cases h : ns.length < 3
  · simp [match_jins, h]
  · simpa only [match_jins, if_neg h] using
      match_fold_snd_mono (unique_sorted ns) t JINS_LIBRARY none 0

/-- Every bin position in the range 0..23 lies within tolerance 2 of
some offset of some catalog template: the catalog's offsets cover the
whole lower-plus-fifth range densely enough. -/
theorem library_covers_low_bins (n : ℤ) (h0 : 0 ≤ n) (h23 : n ≤ 23) :
    ∃ q ∈ JINS_LIBRARY, q.2.intervals_bins ≠ [] ∧
      ∃ iv ∈ q.2.intervals_bins, |n - iv| ≤ 2 := by
  interval_cases n <;> decide

/-- A template whose offset list contains an offset within tolerance of
some observed note gets a strictly positive score. -/
theorem jins_score_pos (u : List ℤ) (ivs : List ℤ) (hne : ivs ≠ [])
    (hex : ∃ iv ∈ ivs, ∃ n ∈ u, |n - iv| ≤ 2) : 0 < jins_score u 2 ivs := by
  unfold jins_score
  apply div_pos
  · have hpos : 0 < ivs.countP (fun iv => u.any (fun n => decide (|n - iv| ≤ 2))) := by
      rw [List.countP_pos_iff]
      obtain ⟨iv, hiv, n, hn, habs⟩ := hex
      refine ⟨iv, hiv, ?_⟩
      simp only [List.any_eq_true, decide_eq_true_eq]
      exact ⟨n, hn, habs⟩
    exact_mod_cast hpos
  · have hlen : 0 < ivs.length := List.length_pos.mpr hne
    exact_mod_cast hlen

/-- At the default tolerance 2, matching a sequence of at least 3
elements that contains some note in the range 0..23 yields a strictly
positive confidence. -/
theorem match_jins_pos (ns : List ℤ) (h3 : 3 ≤ ns.length)
    (hex : ∃ n ∈ ns, 0 ≤ n ∧ n ≤ 23) : 0 < (match_jins ns 2).2 := by
  obtain ⟨n, hn, hn0, hn23⟩ := hex
  obtain ⟨q, hq, hqne, iv, hiv, habs⟩ := library_covers_low_bins n hn0 hn23
  have hu : n ∈ unique_sorted ns := by
    unfold unique_sorted
    rw [List.mem_dedup]
    exact ((List.perm_insertionSort _ ns).mem_iff).mpr hn
  have hscore : 0 < jins_score (unique_sorted ns) 2 q.2.intervals_bins :=
    jins_score_pos _ _ hqne ⟨iv, hiv, n, hu, habs⟩
  have hge := match_fold_snd_ge (unique_sorted ns) 2 JINS_LIBRARY none 0 q hq hqne
  have hlen : ¬ ns.length < 3 := by omega
  simp only [match_jins, if_neg hlen]
  exact lt_of_lt_of_le hscore hge

/-! ## The segmentation search as a first-strict-max selection -/

/-- The inferencer yields a strictly positive confidence whenever the
jins1 match is strictly positive and the jins2 match is non-negative:
every branch multiplies or averages with positive factors. -/
theorem predict_maqam_from_jins_pos (j1 j2 : String × ℚ) (h1 : 0 < j1.2) (h2 : 0 ≤ j2.2) :
    0 < (predict_maqam_from_jins j1 j2).confidence := by
  have hsum : 0 < j1.2 + j2.2 := by linarith
  unfold predict_maqam_from_jins
  cases hf : MAQAM_STRUCTURE.find? (fun q =>
      q.2.jins1 == j1.1 && (q.2.jins2 == j2.1 || q.2.alt_jins2 == some j2.1)) with
  | none =>
    simp only
    have : (0 : ℚ) < 6/10 := by norm_num
    exact mul_pos h1 this
  | some p =>
    obtain ⟨nm, s⟩ := p
    by_cases hj : s.jins2 = j2.1
    · simp only [if_pos hj]
      exact div_pos hsum (by norm_num)
    · simp only [if_neg hj]
      exact mul_pos (div_pos hsum (by norm_num)) (by norm_num)

/-- Every usable (non-skipped) candidate of an in-range pitch sequence
has strictly positive inferred confidence: its lower region holds at
least 3 notes below the boundary, hence in the covered range 0..23, so
the jins1 match is positive and every inferencer branch stays positive. -/
theorem usable_candidate_pos (seq : List ℤ) (hr : ∀ x ∈ seq, 0 ≤ x ∧ x < 36) :
    ∀ p ∈ usable_candidates seq, 0 < p.2.confidence := by
  intro p hp
  unfold usable_candidates at hp
  obtain ⟨root, hroot, rfl⟩ := List.mem_map.mp hp
  obtain ⟨hmem, hus⟩ := List.mem_filter.mp hroot
  have hskip : ¬((segment_into_jins seq root).1.length < 3 ∨
      (segment_into_jins seq root).2.length < 2) := by
    simpa [root_usable] using hus
  push_neg at hskip
  obtain ⟨h3, _⟩ := hskip
  have hne : (segment_into_jins seq root).1 ≠ [] := by
    intro h
    rw [h] at h3
    simp at h3
  obtain ⟨n, hn⟩ := List.exists_mem_of_ne_nil _ hne
  have hmemf : n ∈ seq.filter (fun x => decide (x < root)) := by
    rwa [segment_into_jins_fst] at hn
  obtain ⟨hnseq, hnlt⟩ := List.mem_filter.mp hmemf
  have hnlt' : n < root := of_decide_eq_true hnlt
  have hroot21 : root ≤ 21 := by
    simp only [jins2_root_candidates, List.mem_cons, List.mem_singleton,
      List.not_mem_nil, or_false] at hmem
    rcases hmem with h | h | h | h <;> simp [h]
  have hn0 : 0 ≤ n := (hr n hnseq).1
  have hp1 : 0 < (match_jins (segment_into_jins seq root).1 2).2 :=
    match_jins_pos _ h3 ⟨n, hn, hn0, by omega⟩
  have hp2 : 0 ≤ (match_jins (segment_into_jins seq root).2 2).2 :=
    match_jins_snd_nonneg _ 2
  unfold candidate_result
  exact predict_maqam_from_jins_pos _ _ hp1 hp2

/-- The search loop equals a `pick` over the usable candidates: the
skipped candidates are filtered out, and the fold keeps the first
result whose confidence strictly exceeds the running best. -/
theorem search_loop_eq_pick (seq : List ℤ) :
    ∀ (roots : List ℤ) (best : Option PredictionResult) (bc : ℚ),
      search_loop seq roots best bc =
        match pick bc ((roots.filter (fun r => root_usable seq r)).map
            (fun r => (r, candidate_result seq r))) with
        | none => best
        | some p => some { p.2 with jins2_root := some p.1 } := by
  intro roots
  induction roots with
  | nil => intro best bc; rfl
  | cons root rest ih =>
    intro best bc
    by_cases hskip : (segment_into_jins seq root).1.length < 3 ∨
        (segment_into_jins seq root).2.length < 2
    · have hus : root_usable seq root = false := by
        simp [root_usable, hskip]
      rw [List.filter_cons_of_neg (by simp [hus])]
      simp only [search_loop, if_pos hskip]
      exact ih best bc
    · have hus : root_usable seq root = true := by
        simp [root_usable]
        push_neg at hskip
        omega
      rw [List.filter_cons_of_pos (by simp [hus])]
      simp only [search_loop, if_neg hskip, List.map_cons]
      by_cases hlt : bc < (candidate_result seq root).confidence
      · rw [if_pos hlt, ih]
        simp only [pick, if_pos hlt]
        cases hp : pick (candidate_result seq root).confidence
            ((rest.filter (fun r => root_usable seq r)).map
              (fun r => (r, candidate_result seq r))) with
        | none => simp [hp]
        | some q => simp [hp]
      · rw [if_neg hlt, ih]
        simp only [pick, if_neg hlt]

/-- `pick` returns nothing exactly when no element's confidence exceeds
the threshold. -/
theorem pick_eq_none_iff :
    ∀ (L : List (ℤ × PredictionResult)) (bc : ℚ),
      pick bc L = none ↔ ∀ p ∈ L, p.2.confidence ≤ bc := by
  intro L
  induction L with
  | nil => intro bc; simp [pick]
  | cons p L ih =>
    intro bc
    by_cases h : bc < p.2.confidence
    · simp only [pick, if_pos h]
      constructor
      · intro hcon; exact absurd hcon (by simp)
      · intro hall
        exact absurd (hall p (List.mem_cons_self _ _)) (not_le.mpr h)
    · simp only [pick, if_neg h, ih bc, List.forall_mem_cons]
      have := not_lt.mp h
      tauto

/-- When `pick` returns an element, it is the earliest element of the
list attaining the maximal confidence, and that confidence strictly
exceeds the threshold. -/
theorem pick_spec :
    ∀ (L : List (ℤ × PredictionResult)) (bc : ℚ) (p : ℤ × PredictionResult),
      pick bc L = some p →
      ∃ i, ∃ h : i < L.length, L.get ⟨i, h⟩ = p ∧ bc < p.2.confidence ∧
        (∀ q ∈ L, q.2.confidence ≤ p.2.confidence) ∧
        (∀ q ∈ L.take i, q.2.confidence < p.2.confidence) := by
  intro L
  induction L with
  | nil => intro bc p hp; exact absurd hp (by simp [pick])
  | cons a L ih =>
    intro bc p hp
    by_cases h : bc < a.2.confidence
    · simp only [pick, if_pos h] at hp
      cases hq : pick a.2.confidence L with
      | none =>
        rw [hq] at hp
        simp only [Option.getD_none] at hp
        obtain rfl : a = p := by simpa using hp
        refine ⟨0, by simp, by simp, h, ?_, by simp⟩
        intro q hmem
        rcases List.mem_cons.mp hmem with hm | hm
        · subst hm; exact le_refl _
        · exact (pick_eq_none_iff L a.2.confidence).mp hq q hm
      | some r =>
        rw [hq] at hp
        simp only [Option.getD_some] at hp
        obtain rfl : r = p := by simpa using hp
        obtain ⟨i, hlen, hget, hbc, hall, htake⟩ := ih a.2.confidence r hq
        refine ⟨i + 1, by simpa using Nat.succ_lt_succ hlen, by simpa using hget,
          lt_trans h hbc, ?_, ?_⟩
        · intro q hmem
          rcases List.mem_cons.mp hmem with hm | hm
          · subst hm; exact le_of_lt hbc
          · exact hall q hm
        · intro q hmem
          rw [List.take_succ_cons] at hmem
          rcases List.mem_cons.mp hmem with hm | hm
          · subst hm; exact hbc
          · exact htake q hm
    · simp only [pick, if_neg h] at hp
      obtain ⟨i, hlen, hget, hbc, hall, htake⟩ := ih bc p hp
      refine ⟨i + 1, by simpa using Nat.succ_lt_succ hlen, by simpa using hget, hbc, ?_, ?_⟩
      · intro q hmem
        rcases List.mem_cons.mp hmem with hm | hm
        · subst hm; exact le_trans (not_lt.mp h) (le_of_lt hbc)
        · exact hall q hm
      · intro q hmem
        rw [List.take_succ_cons] at hmem
        rcases List.mem_cons.mp hmem with hm | hm
        · subst hm; exact lt_of_le_of_lt (not_lt.mp h) hbc
        · exact htake q hm

/-- C6: on an in-range pitch sequence, `analyze_full_sequence` tries the
candidate boundaries 12, 15, 18, 21 in order, skips those whose lower
region has fewer than 3 elements or whose upper region has fewer than 2,
and — provided some candidate survives — returns the earliest non-skipped
candidate attaining the strictly highest inferred confidence, with that
candidate's boundary attached as `jins2_root`. -/
theorem analyze_full_sequence_retains_best_candidate (seq : List ℤ)
    (hr : ∀ x ∈ seq, 0 ≤ x ∧ x < 36) (hne : usable_candidates seq ≠ []) :
    ∃ i, ∃ h : i < (usable_candidates seq).length,
      analyze_full_sequence seq =
        { ((usable_candidates seq).get ⟨i, h⟩).2 with
            jins2_root := some ((usable_candidates seq).get ⟨i, h⟩).1 } ∧
      (∀ q ∈ usable_candidates seq,
        q.2.confidence ≤ ((usable_candidates seq).get ⟨i, h⟩).2.confidence) ∧
      (∀ q ∈ (usable_candidates seq).take i,
        q.2.confidence < ((usable_candidates seq).get ⟨i, h⟩).2.confidence) := by
  have hpos := usable_candidate_pos seq hr
  cases hp : pick 0 (usable_candidates seq) with
  | none =>
    obtain ⟨p, hpmem⟩ := List.exists_mem_of_ne_nil _ hne
    have hle := (pick_eq_none_iff _ 0).mp hp p hpmem
    exact absurd hle (not_le.mpr (hpos p hpmem))
  | some p =>
    obtain ⟨i, hlen, hget, _, hall, htake⟩ := pick_spec _ 0 p hp
    refine ⟨i, hlen, ?_, ?_, ?_⟩
    · unfold analyze_full_sequence
      rw [search_loop_eq_pick seq jins2_root_candidates none 0]
      have hlist : (jins2_root_candidates.filter (fun r => root_usable seq r)).map
          (fun r => (r, candidate_result seq r)) = usable_candidates seq := rfl
      rw [hlist, hp, ← hget]
      rfl
    · rw [hget]
      exact hall
    · rw [hget]
      exact htake

/-- Witness for `analyze_full_sequence_retains_best_candidate` at the
sequence `[0, 5, 9, 15, 21]`, whose usable candidates are the boundaries
12 and 15 (18 and 21 leave the upper region too short). -/
theorem analyze_full_sequence_retains_best_candidate_witness :
    (∀ x ∈ ([0, 5, 9, 15, 21] : List ℤ), 0 ≤ x ∧ x < 36) ∧
    usable_candidates [0, 5, 9, 15, 21] ≠ [] ∧
    (∃ i, ∃ h : i < (usable_candidates [0, 5, 9, 15, 21]).length,
      analyze_full_sequence [0, 5, 9, 15, 21] =
        { ((usable_candidates [0, 5, 9, 15, 21]).get ⟨i, h⟩).2 with
            jins2_root := some ((usable_candidates [0, 5, 9, 15, 21]).get ⟨i, h⟩).1 } ∧
      (∀ q ∈ usable_candidates [0, 5, 9, 15, 21],
        q.2.confidence ≤ ((usable_candidates [0, 5, 9, 15, 21]).get ⟨i, h⟩).2.confidence) ∧
      (∀ q ∈ (usable_candidates [0, 5, 9, 15, 21]).take i,
        q.2.confidence < ((usable_candidates [0, 5, 9, 15, 21]).get ⟨i, h⟩).2.confidence)) :=
  ⟨by decide, by decide,
    analyze_full_sequence_retains_best_candidate [0, 5, 9, 15, 21] (by decide) (by decide)⟩

/-- C10: whenever every non-skipped candidate's inferred confidence is
0.0 (in particular when every candidate is skipped), the segmentation
search returns the Unknown sentinel — whose `jins2_root` is absent — so
a usable candidate with confidence 0.0 is never selected and its
fallback name and boundary are discarded. -/
theorem analyze_full_sequence_zero_confidence_sentinel (seq : List ℤ)
    (h : ∀ p ∈ usable_candidates seq, p.2.confidence = 0) :
    analyze_full_sequence seq = unknown_result := by
  have hnone : pick 0 (usable_candidates seq) = none :=
    (pick_eq_none_iff _ 0).mpr (fun p hp => le_of_eq (h p hp))
  unfold analyze_full_sequence
  rw [search_loop_eq_pick seq jins2_root_candidates none 0]
  have hlist : (jins2_root_candidates.filter (fun r => root_usable seq r)).map
      (fun r => (r, candidate_result seq r)) = usable_candidates seq := rfl
  rw [hlist, hnone]
  rfl

/-- Witness for `analyze_full_sequence_zero_confidence_sentinel`: the
out-of-range sequence `[-30, -30, -30, 100, 100]` has all four candidate
boundaries usable, each inferring the fallback "Unknown-based" with
confidence 0.0, yet the search returns the Unknown sentinel (with no
boundary) rather than any of those fallback results. -/
theorem analyze_full_sequence_zero_confidence_sentinel_witness :
    (∀ p ∈ usable_candidates [-30, -30, -30, 100, 100], p.2.confidence = 0) ∧
    usable_candidates [-30, -30, -30, 100, 100] ≠ [] ∧
    (∀ p ∈ usable_candidates [-30, -30, -30, 100, 100], p.2.maqam = "Unknown-based") ∧
    analyze_full_sequence [-30, -30, -30, 100, 100] = unknown_result :=
  ⟨by decide, by decide, by decide,
    analyze_full_sequence_zero_confidence_sentinel [-30, -30, -30, 100, 100] (by decide)⟩
